import Mathlib

/-!
Verification development for the MovieIsFine data pipeline.

The development shallowly embeds the three Python modules of the repository:

* `batch_scrape_parental_guide.py` — the resumable batch orchestrator
  (`batch_scrape`): per-id fetch outcomes, the results/failed accumulators,
  checkpoint writes every ten processed ids, checkpoint loading on resume,
  and the final summary record;
* `imdb_parental_guide_scraper.py` — the regex-based extraction engine:
  text normalization (`_clean_text`), bounded section spans
  (`_find_section_content`), category severity/items, certifications, and
  the retrying HTTP request loop (`_make_request`);
* `scripts/translate_parental_guides.py` — the translator wrapper
  (`translate_items`) with its pad/truncate count-mismatch repair.

Strings processed by the scraper are modelled as `List Char`.  The Python
regex searches are embedded as explicit scanning functions: `reSearch`
returns the leftmost match of a matcher, `reFindAll` the non-overlapping
left-to-right matches (each matcher consumes at least one character on
success, so a fuel argument equal to the input length is sufficient).
Library routines invoked by the code (`html.unescape`, `str.strip`,
`str.split`, `json.load`) are modelled at their boundary: the entity
decoder is restricted to the named entities exercised here, decoding the
longest entity name after an ampersand exactly as the standard decoder
does on those inputs, and checkpoint parsing is an abstract parameter.
-/

namespace MovieIsFine

/-! ### Batch orchestrator (`batch_scrape_parental_guide.py`) -/

/-- Deterministic per-id outcome of `scraper.scrape(imdb_id)` as observed by
the batch loop: a guide with a title, a `None` return, or a raised
exception with a message. -/
inductive FetchOutcome where
  | success (title : String)
  | noGuide
  | exn (msg : String)
deriving DecidableEq

/-- Entry appended to `results`: `{"imdb_id": ..., "status": "success", "title": ...}`. -/
structure ResultEntry where
  imdbId : String
  status : String
  title : String
deriving DecidableEq

/-- Entry appended to `failed`: `{"imdb_id": ..., "error": ...}`. -/
structure FailEntry where
  imdbId : String
  error : String
deriving DecidableEq

/-- Content of the checkpoint file `{"last_index": ..., "results": ..., "failed": ...}`. -/
structure Checkpoint where
  lastIndex : Nat
  results : List ResultEntry
  failed : List FailEntry
deriving DecidableEq

/-- Content of `scrape_summary.json` written at the end of a run. -/
structure Summary where
  total : Nat
  success : Nat
  failedCount : Nat
  failed : List FailEntry
deriving DecidableEq

/-- Body of one iteration of the batch loop: on a guide, append a success
entry to `results`; on a `None` return, record `"scrape returned None"`;
on an exception, record its message. -/
def processOne (fetch : String → FetchOutcome) (id : String)
    (rs : List ResultEntry) (fs : List FailEntry) :
    List ResultEntry × List FailEntry :=
  match fetch id with
  | .success t => (rs ++ [⟨id, "success", t⟩], fs)
  | .noGuide => (rs, fs ++ [⟨id, "scrape returned None"⟩])
  | .exn m => (rs, fs ++ [⟨id, m⟩])

/-- Pure accumulator recursion of the batch loop, ignoring checkpoint
writes (which only touch the checkpoint file, never the in-memory state). -/
def runState (fetch : String → FetchOutcome) :
    List String → List ResultEntry → List FailEntry →
    List ResultEntry × List FailEntry
  | [], rs, fs => (rs, fs)
  | id :: rest, rs, fs =>
    let st := processOne fetch id rs fs
    runState fetch rest st.1 st.2

/-- Batch loop with checkpoint-file effects, stopped after at most `steps`
further items.  The `Option Checkpoint` component is the checkpoint file:
after processing the item at index `i` it is overwritten when
`(i + 1) % 10 == 0`, and it is deleted when the loop runs off the end of
the id list (run completion).  When the step budget runs out with items
remaining, the file is left as is (process interrupted). -/
def runBounded (fetch : String → FetchOutcome) :
    Nat → List String → Nat → List ResultEntry → List FailEntry →
    Option Checkpoint → List ResultEntry × List FailEntry × Option Checkpoint
  | _, [], _, rs, fs, _ => (rs, fs, none)
  | 0, _ :: _, _, rs, fs, cp => (rs, fs, cp)
  | steps + 1, id :: rest, i, rs, fs, cp =>
    let st := processOne fetch id rs fs
    let cp' := if (i + 1) % 10 = 0 then some ⟨i, st.1, st.2⟩ else cp
    runBounded fetch steps rest (i + 1) st.1 st.2 cp'

/-- Complete run of `batch_scrape` given the already-loaded checkpoint
state: with a checkpoint and `start_index == 0`, processing restarts at
`last_index + 1` with `results`/`failed` seeded from the checkpoint;
otherwise it starts at `start_index` with empty accumulators.  The summary
records `total = len(imdb_ids)`, the lengths of the final accumulators,
and the final failed list. -/
def batchScrape (fetch : String → FetchOutcome) (ids : List String)
    (startIndex : Nat) (cp₀ : Option Checkpoint) : Summary :=
  let init : Nat × List ResultEntry × List FailEntry :=
    match cp₀, startIndex with
    | some c, 0 => (c.lastIndex + 1, c.results, c.failed)
    | _, _ => (startIndex, [], [])
  let rem := ids.drop init.1
  let out := runBounded fetch rem.length rem init.1 init.2.1 init.2.2 cp₀
  ⟨ids.length, out.1.length, out.2.1.length, out.2.1⟩

/-- Checkpoint file left behind by a fresh run (`start_index = 0`, no
pre-existing checkpoint) stopped after processing `m` items. -/
def interruptedRun (fetch : String → FetchOutcome) (ids : List String)
    (m : Nat) : Option Checkpoint :=
  (runBounded fetch m ids 0 [] [] none).2.2

/-- Startup of `batch_scrape` including the checkpoint-file read: the file
is read only when it exists and `start_index == 0`; unparseable content
raises out of the function (modelled as `Except.error`). -/
def batchScrapeFile (parse : String → Option Checkpoint)
    (cpFile : Option String) (fetch : String → FetchOutcome)
    (ids : List String) (startIndex : Nat) : Except String Summary :=
  match cpFile, startIndex with
  | some content, 0 =>
    match parse content with
    | none => Except.error "checkpoint parse error"
    | some c => Except.ok (batchScrape fetch ids 0 (some c))
  | _, _ => Except.ok (batchScrape fetch ids startIndex none)

/-- Whether the per-id outcome counts as a success for the batch loop. -/
def successOf : FetchOutcome → Bool
  | .success _ => true
  | _ => false

/-- Result entry produced for an id whose fetch succeeds. -/
def resultEntryOf (fetch : String → FetchOutcome) (id : String) : ResultEntry :=
  match fetch id with
  | .success t => ⟨id, "success", t⟩
  | _ => ⟨id, "success", ""⟩

/-- Failed entry produced for an id whose fetch does not succeed. -/
def failEntryOf (fetch : String → FetchOutcome) (id : String) : FailEntry :=
  match fetch id with
  | .success _ => ⟨id, ""⟩
  | .noGuide => ⟨id, "scrape returned None"⟩
  | .exn m => ⟨id, m⟩

/-- Checkpoint-content invariant: any checkpoint written by the batch loop
during a fresh run stores the accumulator state reached after processing
the first `last_index + 1` ids. -/
def CpOk (fetch : String → FetchOutcome) (ids : List String)
    (cp : Option Checkpoint) : Prop :=
  ∀ c, cp = some c →
    (c.results, c.failed) = runState fetch (ids.take (c.lastIndex + 1)) [] []

/-- Example fetch map used to instantiate the batch theorems: id `m04`
fails, everything else succeeds. -/
def fetchEx : String → FetchOutcome :=
  fun id => if id = "m04" then .exn "boom" else .success "t"

/-- Example id list of twelve ids, long enough for a checkpoint write. -/
def idsEx : List String :=
  ["m01", "m02", "m03", "m04", "m05", "m06",
    "m07", "m08", "m09", "m10", "m11", "m12"]

/-! ### Text normalization (`_clean_text` in `imdb_parental_guide_scraper.py`) -/

/-- Whitespace class used by the regex engine and by strip. -/
def isSpace (c : Char) : Bool :=
  c = ' ' || c = '\t' || c = '\n' || c = '\r' || c = '\x0b' || c = '\x0c'

/-- State-machine form of the whitespace collapse `re.sub` of a run of
whitespace by a single space: the Boolean records whether the scanner is
inside a run whose replacement space has already been emitted. -/
def collapseAux : Bool → List Char → List Char
  | _, [] => []
  | inRun, c :: rest =>
    if isSpace c then
      if inRun then collapseAux true rest else ' ' :: collapseAux true rest
    else c :: collapseAux false rest

/-- Whitespace collapse: every maximal whitespace run becomes one space. -/
def collapseWs (s : List Char) : List Char := collapseAux false s

/-- Removal of trailing whitespace. -/
def dropTrailingWs : List Char → List Char
  | [] => []
  | c :: t =>
    match dropTrailingWs t with
    | [] => if isSpace c then [] else [c]
    | r => c :: r

/-- Python `str.strip`: leading and trailing whitespace removed. -/
def stripWs (s : List Char) : List Char := dropTrailingWs (s.dropWhile isSpace)

/-- Named-entity table of the standard decoder restricted to the entities
occurring in this development, longest name first; a missing trailing
semicolon is allowed for these legacy entities, as in the standard
decoder. -/
def entityTable : List (List Char × Char) :=
  [("amp;".data, '&'), ("quot;".data, '"'), ("amp".data, '&'),
    ("lt;".data, '<'), ("gt;".data, '>'), ("lt".data, '<'),
    ("gt".data, '>'), ("quot".data, '"')]

/-- Entity decoding (`html.unescape`): after an ampersand the longest
matching entity name from the table is decoded.  The fuel argument is the
input length, enough for one step per input character. -/
def htmlUnescapeAux : Nat → List Char → List Char
  | 0, s => s
  | _, [] => []
  | fuel + 1, c :: t =>
    if c = '&' then
      match entityTable.find? (fun e => e.1.isPrefixOf t) with
      | some e => e.2 :: htmlUnescapeAux fuel (t.drop e.1.length)
      | none => c :: htmlUnescapeAux fuel t
    else c :: htmlUnescapeAux fuel t

/-- Entity decoding at adequate fuel. -/
def htmlUnescape (s : List Char) : List Char := htmlUnescapeAux s.length s

/-- The `_clean_text` normalization: decode entities, collapse whitespace
runs to single spaces, strip. -/
def cleanText (s : List Char) : List Char := stripWs (collapseWs (htmlUnescape s))

/-- Shape of whitespace-collapsed text: every whitespace character is a
plain space and no two spaces are adjacent. -/
def OkRun (l : List Char) : Prop :=
  (∀ c ∈ l, isSpace c = true → c = ' ') ∧
    l.Chain' (fun a b => ¬(a = ' ' ∧ b = ' '))

/-- The first character, if any, is not whitespace. -/
def HeadOk : List Char → Prop
  | [] => True
  | c :: _ => isSpace c = false

/-- The last character, if any, is not whitespace. -/
def LastOk : List Char → Prop
  | [] => True
  | [c] => isSpace c = false
  | _ :: t => LastOk t

/-! ### Regex scanning primitives -/

/-- Leftmost match of a matcher: search semantics, trying each start
position left to right, including the end-of-string position. -/
def reSearch {α : Type} (m : List Char → Option α) : List Char → Option α
  | [] => m []
  | c :: t =>
    match m (c :: t) with
    | some r => some r
    | none => reSearch m t

/-- Non-overlapping left-to-right matches: findall semantics.  After a
match the scan resumes at the matcher-returned rest; every matcher used
here consumes at least one character on success, so fuel equal to the
input length is sufficient. -/
def reFindAllAux {α : Type} (m : List Char → Option (α × List Char)) :
    Nat → List Char → List α
  | 0, _ => []
  | _ + 1, [] => []
  | fuel + 1, c :: t =>
    match m (c :: t) with
    | some (a, rest) => a :: reFindAllAux m fuel rest
    | none => reFindAllAux m fuel t

/-- Findall at adequate fuel. -/
def reFindAll {α : Type} (m : List Char → Option (α × List Char))
    (s : List Char) : List α :=
  reFindAllAux m s.length s

/-- Matcher for a pattern of the shape: literal, maximal run of
non-closing-bracket characters, the closing bracket, then a nonempty
maximal text capture up to the next opening bracket.  Anchored at the
start of the input; returns the capture and the rest after it. -/
def matchLabelCapture (lit : List Char) (s : List Char) :
    Option (List Char × List Char) :=
  if lit.isPrefixOf s then
    match (s.drop lit.length).dropWhile (fun c => c != '>') with
    | '>' :: u =>
      let cap := u.takeWhile (fun c => c != '<')
      if cap.isEmpty then none else some (cap, u.drop cap.length)
    | _ => none
  else none

/-- Substring test. -/
def containsSub (pat : List Char) : List Char → Bool
  | [] => pat.isPrefixOf []
  | c :: t => pat.isPrefixOf (c :: t) || containsSub pat t

/-! ### Section spans and category extraction -/

/-- The six section ids whose anchors bound a category span. -/
def anchorIds : List (List Char) :=
  ["nudity".data, "violence".data, "profanity".data, "alcohol".data,
    "frightening".data, "certificates".data]

/-- Anchor literal for a section id. -/
def anchorLit (sid : List Char) : List Char :=
  "id=\"".data ++ sid ++ "\"".data

/-- Whether one of the six bounding anchors starts here. -/
def isAnchorStart (s : List Char) : Bool :=
  anchorIds.any (fun a => (anchorLit a).isPrefixOf s)

/-- Lazy span of the section pattern after its anchor: the shortest
stretch of characters up to a position where a bounding anchor starts, or
where only a final newline remains or the document ends (the
end-of-string alternative of the lookahead). -/
def lazySpan : List Char → List Char
  | [] => []
  | c :: t =>
    if isAnchorStart (c :: t) || ((c == '\n') && t.isEmpty) then []
    else c :: lazySpan t

/-- Match of the section pattern at the start of the input: the anchor
literal of the section id followed by the lazy span (the whole match,
group 0). -/
def sectionMatchAt (sid : List Char) (s : List Char) : Option (List Char) :=
  if (anchorLit sid).isPrefixOf s then
    some (anchorLit sid ++ lazySpan (s.drop (anchorLit sid).length))
  else none

/-- The `_find_section_content` routine: leftmost occurrence of the
section anchor, spanning lazily to the next known anchor or the document
end; empty when the anchor does not occur. -/
def findSectionContent (doc : List Char) (sid : List Char) : List Char :=
  match reSearch (sectionMatchAt sid) doc with
  | some sec => sec
  | none => []

/-- Literal of the severity signpost label. -/
def litSignpost : List Char := "ipc-signpost__text".data

/-- Literal of the item marker. -/
def litItemHtml : List Char := "data-testid=\"item-html\"".data

/-- Literal of the inner-div label. -/
def litInnerDiv : List Char := "ipc-html-content-inner-div".data

/-- The `_extract_category_severity` routine: first severity-label match
in the section content. -/
def extractCategorySeverity (doc sid : List Char) : List Char :=
  let sec := findSectionContent doc sid
  if sec.isEmpty then []
  else
    match reSearch (matchLabelCapture litSignpost) sec with
    | some pr => cleanText pr.1
    | none => []

/-- Matcher for one item of the category-items pattern: the item marker,
then, at the first position after it where it succeeds, the inner-div
label capture. -/
def itemMatchAt (s : List Char) : Option (List Char × List Char) :=
  if litItemHtml.isPrefixOf s then
    reSearch (matchLabelCapture litInnerDiv) (s.drop litItemHtml.length)
  else none

/-- Loop body of `_extract_category_items`: clean each match capture and
keep the nonempty ones. -/
def collectItems : List (List Char) → List (List Char)
  | [] => []
  | capt :: rest =>
    let t := cleanText capt
    if t.isEmpty then collectItems rest else t :: collectItems rest

/-- The `_extract_category_items` routine. -/
def extractCategoryItems (doc sid : List Char) : List (List Char) :=
  let sec := findSectionContent doc sid
  if sec.isEmpty then []
  else collectItems (reFindAll itemMatchAt sec)

/-- Severity and item list of one parental-guide category. -/
structure CategoryInfo where
  severity : List Char
  items : List (List Char)
deriving DecidableEq

/-- The `_extract_category` routine. -/
def extractCategory (doc sid : List Char) : CategoryInfo :=
  ⟨extractCategorySeverity doc sid, extractCategoryItems doc sid⟩

/-! ### Title and content rating -/

/-- Literal of the subtitle marker. -/
def litSubtitle : List Char := "data-testid=\"subtitle\"".data

/-- Opening literal of the page-title element. -/
def litTitleOpen : List Char := "<title>".data

/-- Closing literal of the page-title element. -/
def litTitleClose : List Char := "</title>".data

/-- Matcher for the page-title element with a nonempty text capture. -/
def titleTagMatchAt (s : List Char) : Option (List Char) :=
  if litTitleOpen.isPrefixOf s then
    let u := s.drop litTitleOpen.length
    let cap := u.takeWhile (fun c => c != '<')
    if cap.isEmpty then none
    else if litTitleClose.isPrefixOf (u.drop cap.length) then some cap
    else none
  else none

/-- Whether the input begins with optional whitespace followed by a
parenthesized four-digit year. -/
def yearTail (s : List Char) : Bool :=
  match s.dropWhile isSpace with
  | '(' :: d1 :: d2 :: d3 :: d4 :: ')' :: _ =>
    d1.isDigit && d2.isDigit && d3.isDigit && d4.isDigit
  | _ => false

/-- Lazy nonempty newline-free prefix capture of the anchored
title-before-year pattern: the shortest nonempty prefix after which the
year tail matches. -/
def titleBeforeYear : List Char → Option (List Char)
  | [] => none
  | c :: t =>
    if c = '\n' then none
    else if yearTail t then some [c]
    else (titleBeforeYear t).map (fun cap => c :: cap)

/-- The `_extract_title` routine: the subtitle label if present, else the
page title stripped of a trailing parenthesized year. -/
def extractTitle (doc : List Char) : List Char :=
  match reSearch (matchLabelCapture litSubtitle) doc with
  | some pr => cleanText pr.1
  | none =>
    match reSearch titleTagMatchAt doc with
    | some titleText =>
      match titleBeforeYear titleText with
      | some cap => cleanText cap
      | none => []
    | none => []

/-- Literal of the content-rating section marker. -/
def litContentRating : List Char := "data-testid=\"content-rating\"".data

/-- Literal of the rating heading. -/
def litMotionPicture : List Char := "Motion Picture Rating".data

/-- Matcher for the content-rating pattern at the start of the input: the
section marker, then, each lazy segment resolved at the first position
where the remainder succeeds, the heading literal and an inner-div
capture. -/
def contentRatingMatchAt (s : List Char) : Option (List Char) :=
  if litContentRating.isPrefixOf s then
    reSearch
      (fun u =>
        if litMotionPicture.isPrefixOf u then
          reSearch (fun v => (matchLabelCapture litInnerDiv v).map Prod.fst)
            (u.drop litMotionPicture.length)
        else none)
      (s.drop litContentRating.length)
  else none

/-- The `_extract_content_rating` routine. -/
def extractContentRating (doc : List Char) : List Char :=
  match reSearch contentRatingMatchAt doc with
  | some cap => cleanText cap
  | none => []

/-! ### Certifications -/

/-- One rating with an optional note. -/
structure CertificationRating where
  rating : List Char
  note : List Char
deriving DecidableEq

/-- Certification ratings of one country. -/
structure CertificationItem where
  country : List Char
  ratings : List CertificationRating
deriving DecidableEq

/-- Literal of the certificates container marker. -/
def litCertContainer : List Char := "data-testid=\"certificates-container\"".data

/-- Closing-section literal ending the certificates span. -/
def litSectionClose : List Char := "</section>".data

/-- Footer literal ending the certificates span. -/
def litFooterOpen : List Char := "<footer".data

/-- Full per-country item marker used for splitting. -/
def litCertItemMarker : List Char := "data-testid=\"certificates-item\"".data

/-- Shorter substring tested to skip non-item pieces. -/
def litCertItemSub : List Char := "certificates-item".data

/-- Literal of the country label. -/
def litMetaLabel : List Char := "ipc-metadata-list-item__label".data

/-- Literal of the rating link label. -/
def litRatingLink : List Char :=
  "ipc-metadata-list-item__list-content-item--link".data

/-- Closing anchor tag after a rating capture. -/
def litCloseAnchor : List Char := "</a>".data

/-- Opening literal of the optional rating subtext. -/
def litSubTextOpen : List Char :=
  "<span class=\"ipc-metadata-list-item__list-content-item--subText\">".data

/-- Closing literal of the optional rating subtext. -/
def litSubTextClose : List Char := "</span>".data

/-- Lazy middle of the certificates-section pattern: shortest stretch up
to a closing-section or footer marker, which is part of the match. -/
def lazyUntilSectionEnd : List Char → Option (List Char × List Char)
  | [] => none
  | c :: t =>
    if litSectionClose.isPrefixOf (c :: t) then some ([], litSectionClose)
    else if litFooterOpen.isPrefixOf (c :: t) then some ([], litFooterOpen)
    else (lazyUntilSectionEnd t).map (fun pr => (c :: pr.1, pr.2))

/-- Match (group 0) of the certificates-section pattern at the start of
the input. -/
def certSectionAt (s : List Char) : Option (List Char) :=
  if litCertContainer.isPrefixOf s then
    (lazyUntilSectionEnd (s.drop litCertContainer.length)).map
      (fun pr => litCertContainer ++ pr.1 ++ pr.2)
  else none

/-- Leftmost certificates-section match in the document. -/
def findCertSection (doc : List Char) : Option (List Char) :=
  reSearch certSectionAt doc

/-- Zero-width split keeping the delimiter: a new piece starts at every
position where the marker begins; the piece before the first marker
position may be empty. -/
def splitKeepMarker (marker : List Char) (acc : List Char) :
    List Char → List (List Char)
  | [] => [acc.reverse]
  | c :: t =>
    if marker.isPrefixOf (c :: t) then
      acc.reverse :: splitKeepMarker marker [c] t
    else splitKeepMarker marker (c :: acc) t

/-- Country label of one certification sub-block (first label match). -/
def blockCountry (b : List Char) : List Char :=
  match reSearch (matchLabelCapture litMetaLabel) b with
  | some pr => cleanText pr.1
  | none => []

/-- Optional subtext group of the rating pattern. -/
def optSubText (s : List Char) : Option (List Char × List Char) :=
  if litSubTextOpen.isPrefixOf s then
    let u := s.drop litSubTextOpen.length
    let cap := u.takeWhile (fun c => c != '<')
    if litSubTextClose.isPrefixOf (u.drop cap.length) then
      some (cap, (u.drop cap.length).drop litSubTextClose.length)
    else none
  else none

/-- Matcher for one rating of the rating pattern: the link label capture,
the closing anchor tag, then optionally a subtext capture. -/
def ratingMatchAt (s : List Char) :
    Option ((List Char × List Char) × List Char) :=
  match matchLabelCapture litRatingLink s with
  | some (cap1, u) =>
    if litCloseAnchor.isPrefixOf u then
      let u2 := u.drop litCloseAnchor.length
      match optSubText u2 with
      | some (cap2, u3) => some ((cap1, cap2), u3)
      | none => some ((cap1, []), u2)
    else none
  | none => none

/-- Loop body over the rating matches of one sub-block: clean both
captures, keep pairs with a nonempty cleaned rating. -/
def collectRatings :
    List (List Char × List Char) → List CertificationRating
  | [] => []
  | pr :: rest =>
    let rt := cleanText pr.1
    if rt.isEmpty then collectRatings rest
    else ⟨rt, cleanText pr.2⟩ :: collectRatings rest

/-- All kept ratings of one certification sub-block. -/
def blockRatings (b : List Char) : List CertificationRating :=
  collectRatings (reFindAll ratingMatchAt b)

/-- Loop of `_extract_certifications` over the sub-blocks: skip pieces
without the item marker text, pieces with an empty country, and pieces
with no kept rating. -/
def processBlocks : List (List Char) → List CertificationItem
  | [] => []
  | b :: rest =>
    if containsSub litCertItemSub b then
      let country := blockCountry b
      if country.isEmpty then processBlocks rest
      else
        let ratings := blockRatings b
        if ratings.isEmpty then processBlocks rest
        else ⟨country, ratings⟩ :: processBlocks rest
    else processBlocks rest

/-- The `_extract_certifications` routine. -/
def extractCertifications (doc : List Char) : List CertificationItem :=
  match findCertSection doc with
  | none => []
  | some sec => processBlocks (splitKeepMarker litCertItemMarker [] sec)

/-! ### The full guide record -/

/-- Category section ids (`CATEGORY_IDS`), in the record's field order. -/
def categoryIds : List (List Char) :=
  ["nudity".data, "violence".data, "profanity".data, "alcohol".data,
    "frightening".data]

/-- The typed record produced by one extraction call. -/
structure ParentalGuide where
  imdbId : List Char
  title : List Char
  url : List Char
  contentRating : List Char
  sexNudity : CategoryInfo
  violenceGore : CategoryInfo
  profanity : CategoryInfo
  alcoholDrugsSmoking : CategoryInfo
  frighteningIntense : CategoryInfo
  certifications : List CertificationItem
deriving DecidableEq

/-- Normalization of the id to its fixed alphanumeric prefix. -/
def normalizeImdbId (id : List Char) : List Char :=
  if ("tt".data).isPrefixOf id then id else "tt".data ++ id

/-- Guide URL for an id. -/
def guideUrl (id : List Char) : List Char :=
  "https://www.imdb.com/title/".data ++ id ++ "/parentalguide/".data

/-- The record construction of `scrape` applied to a fetched document. -/
def extractGuide (imdbId doc : List Char) : ParentalGuide :=
  let nid := normalizeImdbId imdbId
  { imdbId := nid
    title := extractTitle doc
    url := guideUrl nid
    contentRating := extractContentRating doc
    sexNudity := extractCategory doc "nudity".data
    violenceGore := extractCategory doc "violence".data
    profanity := extractCategory doc "profanity".data
    alcoholDrugsSmoking := extractCategory doc "alcohol".data
    frighteningIntense := extractCategory doc "frightening".data
    certifications := extractCertifications doc }

/-- The record field corresponding to a category section id. -/
def categoryOf (g : ParentalGuide) (sid : List Char) : CategoryInfo :=
  if sid = "nudity".data then g.sexNudity
  else if sid = "violence".data then g.violenceGore
  else if sid = "profanity".data then g.profanity
  else if sid = "alcohol".data then g.alcoholDrugsSmoking
  else g.frighteningIntense

/-! ### HTTP retry loop (`_make_request`) -/

/-- Outcome of one HTTP attempt: a response with a status code and body,
or a raised request exception (timeout, connection error). -/
inductive AttemptOutcome where
  | response (status : Nat) (body : String)
  | exn (msg : String)
deriving DecidableEq

/-- Whether an attempt outcome is a 200 response. -/
def is200 : AttemptOutcome → Bool
  | .response st _ => st == 200
  | .exn _ => false

/-- Retry loop of `_make_request` from a given attempt number with a
remaining-attempt budget: a response with status code exactly 200 returns
the body; any other status and any request exception leads, after logging
and a backoff sleep, to the next attempt; an exhausted budget returns
nothing. -/
def makeRequestAux (outcomes : Nat → AttemptOutcome) :
    Nat → Nat → Option String
  | _, 0 => none
  | attempt, remaining + 1 =>
    match outcomes attempt with
    | .response st body =>
      if st = 200 then some body
      else makeRequestAux outcomes (attempt + 1) remaining
    | .exn _ => makeRequestAux outcomes (attempt + 1) remaining

/-- The `_make_request` routine over a deterministic sequence of attempt
outcomes. -/
def makeRequest (outcomes : Nat → AttemptOutcome) (maxRetries : Nat) :
    Option String :=
  makeRequestAux outcomes 0 maxRetries

/-! ### Translator wrapper (`translate_items`) -/

/-- Result of one translation-service call: the response content, or a
raised exception message. -/
inductive SvcResult where
  | ok (content : String)
  | err (msg : String)
deriving DecidableEq

/-- Split on the three-dash separator, scanning left to right for
non-overlapping occurrences. -/
def splitDashes (acc : List Char) : List Char → List (List Char)
  | '-' :: '-' :: '-' :: rest => acc.reverse :: splitDashes [] rest
  | c :: t => splitDashes (c :: acc) t
  | [] => [acc.reverse]

/-- Post-processing of the service response: strip the content, split on
the separator, strip each piece, drop empty pieces. -/
def postprocessResponse (content : String) : List String :=
  (splitDashes [] (stripWs content.data)).filterMap
    (fun piece =>
      let t := stripWs piece
      if t.isEmpty then none else some (String.mk t))

/-- Length repair of the wrapper: pad a short service list with the
remaining original items, truncate a long one. -/
def fixLength (items ti : List String) : List String :=
  if ti.length ≠ items.length then
    if ti.length < items.length then ti ++ items.drop ti.length
    else ti.take items.length
  else ti

/-- Retry loop of `translate_items`, also counting service invocations. -/
def translateItemsAux (service : Nat → SvcResult) (items : List String) :
    Nat → Nat → Option (List String) × Nat
  | _, 0 => (none, 0)
  | attempt, remaining + 1 =>
    match service attempt with
    | .ok content => (some (fixLength items (postprocessResponse content)), 1)
    | .err _ =>
      let rest := translateItemsAux service items (attempt + 1) remaining
      (rest.1, rest.2 + 1)

/-- The `translate_items` wrapper: an empty item list returns immediately
without any service call; otherwise the service is called with retries,
the response split into items and the count mismatch repaired. -/
def translateItems (service : Nat → SvcResult) (items : List String)
    (maxRetries : Nat) : Option (List String) × Nat :=
  if items.isEmpty then (some [], 0)
  else translateItemsAux service items 0 maxRetries

/-! ### Example documents and outcome maps for the claim witnesses -/

/-- Document with a certifications container holding three per-country
sub-blocks, the middle one with a country label but no rating. -/
def certDocEx : List Char :=
  ("<section>data-testid=\"certificates-container\" "
    ++ "data-testid=\"certificates-item\" ipc-metadata-list-item__label>USA<"
    ++ " ipc-metadata-list-item__list-content-item--link>PG-13</a>"
    ++ "data-testid=\"certificates-item\" ipc-metadata-list-item__label>Nowhere<"
    ++ "data-testid=\"certificates-item\" ipc-metadata-list-item__label>Germany<"
    ++ " ipc-metadata-list-item__list-content-item--link>16</a>"
    ++ "</section>").data

/-- The certificates-section match inside `certDocEx`. -/
def certSecEx : List Char := (findCertSection certDocEx).getD []

/-- Attempt outcomes whose first attempt raises and whose second returns
a 200 response. -/
def attemptsEx : Nat → AttemptOutcome :=
  fun n => if n = 0 then .exn "timeout" else .response 200 "doc"

/-- Attempt outcomes always returning a 404 response. -/
def attemptsBad : Nat → AttemptOutcome :=
  fun _ => .response 404 "err"

/-! #### Lemmas about the batch loop -/

theorem runState_append (fetch : String → FetchOutcome) (l₁ l₂ : List String)
    (rs : List ResultEntry) (fs : List FailEntry) :
    runState fetch (l₁ ++ l₂) rs fs =
      runState fetch l₂ (runState fetch l₁ rs fs).1 (runState fetch l₁ rs fs).2 := by
  induction l₁ generalizing rs fs with
  | nil => rfl
  | cons id rest ih => simp [runState, ih]

theorem runBounded_state (fetch : String → FetchOutcome) (l : List String)
    (steps i : Nat) (rs : List ResultEntry) (fs : List FailEntry)
    (cp : Option Checkpoint) (h : l.length ≤ steps) :
    ((runBounded fetch steps l i rs fs cp).1,
      (runBounded fetch steps l i rs fs cp).2.1) = runState fetch l rs fs := by
  induction l generalizing steps i rs fs cp with
  | nil => cases steps <;> rfl
  | cons id rest ih =>
    cases steps with
    | zero => simp at h
    | succ steps =>
      simp only [runBounded, runState]
      exact ih steps (i + 1) _ _ _ (by simpa using h)

/-- Characterization of the accumulators of a run: successes are the ids
passing the fetch, failures the rest, in input order, appended to the
seeds. -/
theorem runState_filter (fetch : String → FetchOutcome) (l : List String)
    (rs : List ResultEntry) (fs : List FailEntry) :
    runState fetch l rs fs =
      (rs ++ (l.filter (fun x => successOf (fetch x))).map (resultEntryOf fetch),
        fs ++ (l.filter (fun x => !successOf (fetch x))).map (failEntryOf fetch)) := by
  induction l generalizing rs fs with
  | nil => simp [runState]
  | cons id rest ih =>
    simp only [runState]
    rcases hf : fetch id with t | _ | m <;>
      simp [processOne, hf, ih, successOf, resultEntryOf, failEntryOf,
        List.filter_cons]

theorem imdbId_resultEntryOf (fetch : String → FetchOutcome) (x : String) :
    (resultEntryOf fetch x).imdbId = x := by
  rcases h : fetch x with t | _ | m <;> simp [resultEntryOf, h]

theorem imdbId_failEntryOf (fetch : String → FetchOutcome) (x : String) :
    (failEntryOf fetch x).imdbId = x := by
  rcases h : fetch x with t | _ | m <;> simp [failEntryOf, h]

theorem length_filter_add_length_filter_not (l : List String) (p : String → Bool) :
    (l.filter p).length + (l.filter (fun x => !p x)).length = l.length := by
  induction l with
  | nil => rfl
  | cons x rest ih =>
    by_cases h : p x <;> simp [List.filter_cons, h] <;> omega

theorem runState_fst_map (fetch : String → FetchOutcome) (l : List String) :
    (runState fetch l [] []).1.map ResultEntry.imdbId
      = l.filter (fun x => successOf (fetch x)) := by
  rw [runState_filter]
  simp [List.map_map, Function.comp_def, imdbId_resultEntryOf]

theorem runState_snd_map (fetch : String → FetchOutcome) (l : List String) :
    (runState fetch l [] []).2.map FailEntry.imdbId
      = l.filter (fun x => !successOf (fetch x)) := by
  rw [runState_filter]
  simp [List.map_map, Function.comp_def, imdbId_failEntryOf]

theorem batchScrape_fresh (fetch : String → FetchOutcome) (ids : List String) :
    batchScrape fetch ids 0 none
      = ⟨ids.length, (runState fetch ids [] []).1.length,
          (runState fetch ids [] []).2.length, (runState fetch ids [] []).2⟩ := by
  have hb := runBounded_state fetch ids ids.length 0 [] [] none le_rfl
  have h1 := congrArg Prod.fst hb
  have h2 := congrArg Prod.snd hb
  simp only [batchScrape, List.drop_zero]
  simp only at h1 h2
  rw [h1, h2]

theorem batchScrape_start (fetch : String → FetchOutcome) (ids : List String)
    (s : Nat) (hs : 0 < s) :
    batchScrape fetch ids s none
      = ⟨ids.length, (runState fetch (ids.drop s) [] []).1.length,
          (runState fetch (ids.drop s) [] []).2.length,
          (runState fetch (ids.drop s) [] []).2⟩ := by
  cases s with
  | zero => omega
  | succ n =>
    have hb := runBounded_state fetch (ids.drop (n + 1)) (ids.drop (n + 1)).length
      (n + 1) [] [] none le_rfl
    have h1 := congrArg Prod.fst hb
    have h2 := congrArg Prod.snd hb
    simp only [batchScrape]
    simp only at h1 h2
    rw [h1, h2]

theorem runBounded_cp (fetch : String → FetchOutcome) (ids : List String) :
    ∀ (steps : Nat) (done l : List String) (cp : Option Checkpoint),
      ids = done ++ l → CpOk fetch ids cp →
      CpOk fetch ids
        (runBounded fetch steps l done.length
          (runState fetch done [] []).1 (runState fetch done [] []).2 cp).2.2 := by
  intro steps
  induction steps with
  | zero =>
    intro done l cp hids hcp
    cases l with
    | nil => intro c hc; simp [runBounded] at hc
    | cons id rest => simpa [runBounded] using hcp
  | succ steps ih =>
    intro done l cp hids hcp
    cases l with
    | nil => intro c hc; simp [runBounded] at hc
    | cons id rest =>
      have hdone' : runState fetch (done ++ [id]) [] []
          = processOne fetch id (runState fetch done [] []).1
              (runState fetch done [] []).2 := by
        rw [runState_append]; rfl
      have hlen : (done ++ [id]).length = done.length + 1 := by simp
      have hids' : ids = (done ++ [id]) ++ rest := by simpa using hids
      have hcp' : CpOk fetch ids
          (if (done.length + 1) % 10 = 0
            then some ⟨done.length,
                (processOne fetch id (runState fetch done [] []).1
                  (runState fetch done [] []).2).1,
                (processOne fetch id (runState fetch done [] []).1
                  (runState fetch done [] []).2).2⟩
            else cp) := by
        split
        · intro c hc
          cases Option.some.inj hc
          have htake : ids.take (done.length + 1) = done ++ [id] := by
            rw [hids', ← hlen]
            exact List.take_left ..
          simp only [htake, hdone']
        · exact hcp
      have h := ih (done ++ [id]) rest _ hids' hcp'
      rw [hlen, hdone'] at h
      simpa [runBounded] using h

theorem interruptedRun_cpOk (fetch : String → FetchOutcome) (ids : List String)
    (m : Nat) : CpOk fetch ids (interruptedRun fetch ids m) := by
  have h := runBounded_cp fetch ids m [] ids none (by simp)
    (by intro c hc; cases hc)
  simpa [interruptedRun, runState] using h

theorem batchScrape_resume (fetch : String → FetchOutcome) (ids : List String)
    (c : Checkpoint)
    (hc : (c.results, c.failed) = runState fetch (ids.take (c.lastIndex + 1)) [] []) :
    batchScrape fetch ids 0 (some c) = batchScrape fetch ids 0 none := by
  have h1 := congrArg Prod.fst hc
  have h2 := congrArg Prod.snd hc
  simp only at h1 h2
  have hres : runState fetch (ids.drop (c.lastIndex + 1)) c.results c.failed
      = runState fetch ids [] [] := by
    conv_rhs => rw [← List.take_append_drop (c.lastIndex + 1) ids]
    rw [runState_append, h1, h2]
  have hb := runBounded_state fetch (ids.drop (c.lastIndex + 1))
    (ids.drop (c.lastIndex + 1)).length (c.lastIndex + 1) c.results c.failed
    (some c) le_rfl
  rw [hres] at hb
  have hb1 := congrArg Prod.fst hb
  have hb2 := congrArg Prod.snd hb
  simp only at hb1 hb2
  rw [batchScrape_fresh]
  simp only [batchScrape]
  rw [hb1, hb2]

/-! ### Claim theorems for the batch orchestrator -/

/-- C1 (amended): running the batch to completion from the start (start
index 0, no checkpoint) yields a summary whose success and failed counts
sum to `total`; the success-entry ids are exactly the ids whose fetch
succeeds and the failed-entry ids exactly the rest, each in input order
(a sublist of the input); and, provided the input ids are pairwise
distinct, no id occurs in more than one entry across `results` and
`failed`. -/
theorem c1_summary_partition (fetch : String → FetchOutcome) (ids : List String) :
    (batchScrape fetch ids 0 none).success + (batchScrape fetch ids 0 none).failedCount
        = (batchScrape fetch ids 0 none).total
    ∧ (runState fetch ids [] []).1.map ResultEntry.imdbId
        = ids.filter (fun x => successOf (fetch x))
    ∧ (runState fetch ids [] []).2.map FailEntry.imdbId
        = ids.filter (fun x => !successOf (fetch x))
    ∧ List.Sublist ((runState fetch ids [] []).1.map ResultEntry.imdbId) ids
    ∧ List.Sublist ((runState fetch ids [] []).2.map FailEntry.imdbId) ids
    ∧ (ids.Nodup →
        ((runState fetch ids [] []).1.map ResultEntry.imdbId
          ++ (runState fetch ids [] []).2.map FailEntry.imdbId).Nodup) := by
  have hm1 := runState_fst_map fetch ids
  have hm2 := runState_snd_map fetch ids
  refine ⟨?_, hm1, hm2, ?_, ?_, ?_⟩
  · rw [batchScrape_fresh]
    have l1 : (runState fetch ids [] []).1.length
        = (ids.filter (fun x => successOf (fetch x))).length := by
      rw [← hm1, List.length_map]
    have l2 : (runState fetch ids [] []).2.length
        = (ids.filter (fun x => !successOf (fetch x))).length := by
      rw [← hm2, List.length_map]
    simpa [l1, l2] using
      length_filter_add_length_filter_not ids (fun x => successOf (fetch x))
  · rw [hm1]; exact List.filter_sublist ids
  · rw [hm2]; exact List.filter_sublist ids
  · intro hnd
    rw [hm1, hm2]
    refine List.Nodup.append (hnd.filter _) (hnd.filter _) ?_
    intro x hx hx'
    rw [List.mem_filter] at hx hx'
    have := hx.2
    have := hx'.2
    simp_all

/-- Witness for C1 at a concrete fetch map and id list, with the
distinctness hypothesis discharged. -/
theorem c1_summary_partition_witness :
    ((batchScrape fetchEx idsEx 0 none).success
          + (batchScrape fetchEx idsEx 0 none).failedCount
        = (batchScrape fetchEx idsEx 0 none).total)
    ∧ ((runState fetchEx idsEx [] []).1.map ResultEntry.imdbId
        ++ (runState fetchEx idsEx [] []).2.map FailEntry.imdbId).Nodup :=
  ⟨(c1_summary_partition fetchEx idsEx).1,
    (c1_summary_partition fetchEx idsEx).2.2.2.2.2 (by decide)⟩

/-- Counterexample to C1 as stated: on the input sequence
`["tt1", "tt1"]`, whose id occurs twice, a fully successful fresh run
produces two `results` entries with the same id, so some id occurs in
more than one entry across `results` and `failed`. -/
theorem c1_duplicate_id_counterexample :
    ¬ (((runState (fun _ => FetchOutcome.success "T") ["tt1", "tt1"] [] []).1.map
          ResultEntry.imdbId
        ++ (runState (fun _ => FetchOutcome.success "T") ["tt1", "tt1"] [] []).2.map
          FailEntry.imdbId).Nodup) := by
  decide

/-- C3: stopping a fresh run after processing `10 * k + j` items
(`j < 10`) and resuming with start index 0 from the persisted checkpoint
produces the same final summary as a single uninterrupted run under
identical per-id fetch outcomes. -/
theorem c3_resume_equals_uninterrupted (fetch : String → FetchOutcome)
    (ids : List String) (k j : Nat) (hj : j < 10) :
    batchScrape fetch ids 0 (interruptedRun fetch ids (10 * k + j))
      = batchScrape fetch ids 0 none := by
  have hcp := interruptedRun_cpOk fetch ids (10 * k + j)
  rcases h : interruptedRun fetch ids (10 * k + j) with _ | c
  · rfl
  · exact batchScrape_resume fetch ids c (hcp c h)

/-- Witness for C3: interrupting the twelve-id example run after
`10 * 1 + 2` items (so a checkpoint at index 9 exists) and resuming
reproduces the uninterrupted summary. -/
theorem c3_resume_equals_uninterrupted_witness :
    2 < 10
    ∧ batchScrape fetchEx idsEx 0 (interruptedRun fetchEx idsEx (10 * 1 + 2))
        = batchScrape fetchEx idsEx 0 none :=
  ⟨by decide, c3_resume_equals_uninterrupted fetchEx idsEx 1 2 (by decide)⟩

/-- C9: a checkpoint file whose content fails to parse, read at startup
because `start_index = 0`, makes the run terminate with an error rather
than proceeding as a fresh run. -/
theorem c9_corrupt_checkpoint_fatal (parse : String → Option Checkpoint)
    (content : String) (fetch : String → FetchOutcome) (ids : List String)
    (h : parse content = none) :
    batchScrapeFile parse (some content) fetch ids 0
      = Except.error "checkpoint parse error" := by
  simp [batchScrapeFile, h]

/-- Witness for C9 with an always-failing parser. -/
theorem c9_corrupt_checkpoint_fatal_witness :
    ((fun _ : String => (none : Option Checkpoint)) "garbage" = none)
    ∧ batchScrapeFile (fun _ => none) (some "garbage") fetchEx idsEx 0
        = Except.error "checkpoint parse error" :=
  ⟨rfl, c9_corrupt_checkpoint_fatal (fun _ => none) "garbage" fetchEx idsEx rfl⟩

/-- C10 (amended): with an explicitly supplied start index `s > 0` the
checkpoint file is never read (the run result is the checkpoint-free run,
whatever the file holds and however it parses), the accumulators start
empty, the summary reports `total` as the full input length while its
success and failed counts cover exactly the ids at indices at least `s`,
and every entry id is drawn from the suffix `ids.drop s` — so a position
before `s` contributes no entry, though an id recurring at an index at
least `s` may still appear. -/
theorem c10_explicit_start_skips_checkpoint (parse : String → Option Checkpoint)
    (cpFile : Option String) (fetch : String → FetchOutcome)
    (ids : List String) (s : Nat) (hs : 0 < s) :
    batchScrapeFile parse cpFile fetch ids s = Except.ok (batchScrape fetch ids s none)
    ∧ (batchScrape fetch ids s none).total = ids.length
    ∧ (batchScrape fetch ids s none).success + (batchScrape fetch ids s none).failedCount
        = (ids.drop s).length
    ∧ (runState fetch (ids.drop s) [] []).1.map ResultEntry.imdbId
        = (ids.drop s).filter (fun x => successOf (fetch x))
    ∧ (runState fetch (ids.drop s) [] []).2.map FailEntry.imdbId
        = (ids.drop s).filter (fun x => !successOf (fetch x))
    ∧ (∀ x, x ∈ (runState fetch (ids.drop s) [] []).1.map ResultEntry.imdbId
          ++ (runState fetch (ids.drop s) [] []).2.map FailEntry.imdbId →
        x ∈ ids.drop s) := by
  obtain ⟨n, rfl⟩ : ∃ n, s = n + 1 := ⟨s - 1, by omega⟩
  have hm1 := runState_fst_map fetch (ids.drop (n + 1))
  have hm2 := runState_snd_map fetch (ids.drop (n + 1))
  refine ⟨?_, ?_, ?_, hm1, hm2, ?_⟩
  · cases cpFile <;> rfl
  · rw [batchScrape_start fetch ids (n + 1) (by omega)]
  · rw [batchScrape_start fetch ids (n + 1) (by omega)]
    have l1 : (runState fetch (ids.drop (n + 1)) [] []).1.length
        = ((ids.drop (n + 1)).filter (fun x => successOf (fetch x))).length := by
      rw [← hm1, List.length_map]
    have l2 : (runState fetch (ids.drop (n + 1)) [] []).2.length
        = ((ids.drop (n + 1)).filter (fun x => !successOf (fetch x))).length := by
      rw [← hm2, List.length_map]
    simpa [l1, l2] using
      length_filter_add_length_filter_not (ids.drop (n + 1))
        (fun x => successOf (fetch x))
  · intro x hx
    rw [hm1, hm2, List.mem_append] at hx
    rcases hx with hx | hx <;> exact List.mem_of_mem_filter hx

/-- Witness for C10: start index 1 on the example run. -/
theorem c10_explicit_start_skips_checkpoint_witness :
    batchScrapeFile (fun _ => none) (some "stale") fetchEx idsEx 1
        = Except.ok (batchScrape fetchEx idsEx 1 none)
    ∧ (batchScrape fetchEx idsEx 1 none).total = idsEx.length
    ∧ (batchScrape fetchEx idsEx 1 none).success
          + (batchScrape fetchEx idsEx 1 none).failedCount
        = (idsEx.drop 1).length :=
  ⟨(c10_explicit_start_skips_checkpoint (fun _ => none) (some "stale")
      fetchEx idsEx 1 (by decide)).1,
    (c10_explicit_start_skips_checkpoint (fun _ => none) (some "stale")
      fetchEx idsEx 1 (by decide)).2.1,
    (c10_explicit_start_skips_checkpoint (fun _ => none) (some "stale")
      fetchEx idsEx 1 (by decide)).2.2.1⟩

/-- Counterexample to C10 as stated: with input `["tt1", "tt1"]` and
start index 1, the id occurring at index 0 (below the start index) still
appears in a summary entry, because the same id recurs at index 1. -/
theorem c10_prefix_id_counterexample :
    "tt1" ∈ (["tt1", "tt1"] : List String).take 1
    ∧ "tt1" ∈ (runState (fun _ => FetchOutcome.success "T")
        ((["tt1", "tt1"] : List String).drop 1) [] []).1.map ResultEntry.imdbId := by
  decide

/-! ### Lemmas about whitespace normalization -/

theorem ne_space_of_isSpace_eq_false {c : Char} (h : isSpace c = false) :
    c ≠ ' ' := by
  intro hc
  subst hc
  simp [isSpace] at h

theorem okRun_cons (c : Char) (l : List Char)
    (hc : isSpace c = true → c = ' ')
    (hhead : ∀ d, l.head? = some d → ¬(c = ' ' ∧ d = ' '))
    (hl : OkRun l) : OkRun (c :: l) := by
  refine ⟨?_, ?_⟩
  · intro x hx hxs
    rcases List.mem_cons.mp hx with rfl | hx
    · exact hc hxs
    · exact hl.1 x hx hxs
  · rw [List.chain'_cons']
    exact ⟨fun y hy => hhead y (by simpa using hy), hl.2⟩

theorem okRun_tail {c : Char} {l : List Char} (h : OkRun (c :: l)) : OkRun l :=
  ⟨fun x hx => h.1 x (List.mem_cons_of_mem _ hx), h.2.tail⟩

theorem headOk_of_head? {l : List Char}
    (h : ∀ d, l.head? = some d → isSpace d = false) : HeadOk l := by
  cases l with
  | nil => trivial
  | cons c t => exact h c rfl

theorem head?_not_space_of_headOk {l : List Char} (h : HeadOk l) :
    ∀ d, l.head? = some d → isSpace d = false := by
  cases l with
  | nil => intro d hd; cases hd
  | cons c t => intro d hd; cases Option.some.inj hd; exact h

theorem okRun_collapseAux (l : List Char) :
    OkRun (collapseAux false l) ∧ OkRun (collapseAux true l)
      ∧ HeadOk (collapseAux true l) := by
  induction l with
  | nil =>
    show OkRun [] ∧ OkRun [] ∧ HeadOk []
    exact ⟨⟨by simp, List.chain'_nil⟩, ⟨by simp, List.chain'_nil⟩, trivial⟩
  | cons c t ih =>
    obtain ⟨ihf, iht, ihh⟩ := ih
    by_cases hsp : isSpace c = true
    · have hf : collapseAux false (c :: t) = ' ' :: collapseAux true t := by
        simp [collapseAux, hsp]
      have ht : collapseAux true (c :: t) = collapseAux true t := by
        simp [collapseAux, hsp]
      refine ⟨?_, by rw [ht]; exact iht, by rw [ht]; exact ihh⟩
      rw [hf]
      refine okRun_cons _ _ (fun _ => rfl) ?_ iht
      intro d hd hcontra
      exact ne_space_of_isSpace_eq_false
        (head?_not_space_of_headOk ihh d hd) hcontra.2
    · have hsp' : isSpace c = false := by simpa using hsp
      have hf : collapseAux false (c :: t) = c :: collapseAux false t := by
        simp [collapseAux, hsp']
      have ht : collapseAux true (c :: t) = c :: collapseAux false t := by
        simp [collapseAux, hsp']
      have hok : OkRun (c :: collapseAux false t) := by
        refine okRun_cons _ _ (fun hxs => absurd hxs (by simp [hsp'])) ?_ ihf
        intro d _ hcontra
        exact ne_space_of_isSpace_eq_false hsp' hcontra.1
      exact ⟨by rw [hf]; exact hok, by rw [ht]; exact hok, by rw [ht]; exact hsp'⟩

theorem okRun_dropWhile {l : List Char} (h : OkRun l) :
    OkRun (l.dropWhile isSpace) := by
  induction l with
  | nil => exact h
  | cons c t ih =>
    by_cases hsp : isSpace c = true
    · rw [List.dropWhile_cons_of_pos (by simpa using hsp)]
      exact ih (okRun_tail h)
    · rw [List.dropWhile_cons_of_neg (by simpa using hsp)]
      exact h

theorem headOk_dropWhile (l : List Char) : HeadOk (l.dropWhile isSpace) := by
  induction l with
  | nil => trivial
  | cons c t ih =>
    by_cases hsp : isSpace c = true
    · rw [List.dropWhile_cons_of_pos (by simpa using hsp)]
      exact ih
    · rw [List.dropWhile_cons_of_neg (by simpa using hsp)]
      simpa using hsp

theorem dropTrailingWs_cons_shape (c : Char) (t : List Char) :
    dropTrailingWs (c :: t) = [] ∨ ∃ r, dropTrailingWs (c :: t) = c :: r := by
  cases h : dropTrailingWs t with
  | nil =>
    by_cases hsp : isSpace c = true
    · left; simp [dropTrailingWs, h, hsp]
    · right; exact ⟨[], by simp [dropTrailingWs, h, hsp]⟩
  | cons d r => right; exact ⟨d :: r, by simp [dropTrailingWs, h]⟩

theorem mem_dropTrailingWs {x : Char} {l : List Char}
    (h : x ∈ dropTrailingWs l) : x ∈ l := by
  induction l with
  | nil => exact h
  | cons c t ih =>
    cases ht : dropTrailingWs t with
    | nil =>
      rw [dropTrailingWs, ht] at h
      by_cases hsp : isSpace c = true
      · simp [hsp] at h
      · simp [hsp] at h
        simp [h]
    | cons d r =>
      rw [dropTrailingWs, ht] at h
      rcases List.mem_cons.mp h with rfl | h
      · exact List.mem_cons_self ..
      · exact List.mem_cons_of_mem _ (ih (ht ▸ h))

theorem head_of_dropTrailingWs {t : List Char} {d : Char} {r : List Char}
    (h : dropTrailingWs t = d :: r) : ∃ t', t = d :: t' := by
  cases t with
  | nil => cases h
  | cons c t' =>
    rcases dropTrailingWs_cons_shape c t' with h0 | ⟨r', hr⟩
    · rw [h0] at h; cases h
    · rw [hr] at h
      exact ⟨t', by rw [(List.cons.injEq ..).mp h |>.1]⟩

theorem okRun_dropTrailingWs {l : List Char} (h : OkRun l) :
    OkRun (dropTrailingWs l) := by
  induction l with
  | nil => exact h
  | cons c t ih =>
    cases ht : dropTrailingWs t with
    | nil =>
      have hres : dropTrailingWs (c :: t) = if isSpace c = true then [] else [c] := by
        rw [dropTrailingWs, ht]
      rw [hres]
      by_cases hsp : isSpace c = true
      · rw [if_pos hsp]
        exact ⟨by simp, List.chain'_nil⟩
      · rw [if_neg hsp]
        refine ⟨?_, List.chain'_singleton c⟩
        intro x hx hxs
        have hx' : x = c := List.mem_singleton.mp hx
        subst hx'
        exact h.1 x (List.mem_cons_self ..) hxs
    | cons d r =>
      rw [dropTrailingWs, ht]
      have hdt : OkRun (d :: r) := ht ▸ ih (okRun_tail h)
      refine okRun_cons _ _ (fun hxs => h.1 c (List.mem_cons_self ..) hxs) ?_ hdt
      intro y hy hcontra
      cases Option.some.inj hy
      obtain ⟨t', rfl⟩ := head_of_dropTrailingWs ht
      have := h.2
      rw [List.chain'_cons] at this
      exact this.1 hcontra

theorem headOk_dropTrailingWs {l : List Char} (h : HeadOk l) :
    HeadOk (dropTrailingWs l) := by
  cases l with
  | nil => trivial
  | cons c t =>
    rcases dropTrailingWs_cons_shape c t with h0 | ⟨r, hr⟩
    · rw [h0]; trivial
    · rw [hr]; exact h

theorem lastOk_dropTrailingWs (l : List Char) : LastOk (dropTrailingWs l) := by
  induction l with
  | nil => trivial
  | cons c t ih =>
    cases ht : dropTrailingWs t with
    | nil =>
      rw [dropTrailingWs, ht]
      by_cases hsp : isSpace c = true
      · simp only [hsp, if_true]; trivial
      · simp only [hsp, if_false]
        simpa [LastOk] using hsp
    | cons d r =>
      rw [dropTrailingWs, ht]
      show LastOk (c :: d :: r)
      have : LastOk (d :: r) := ht ▸ ih
      exact this

theorem dropWhile_eq_self_of_headOk {l : List Char} (h : HeadOk l) :
    l.dropWhile isSpace = l := by
  cases l with
  | nil => rfl
  | cons c t => exact List.dropWhile_cons_of_neg (by simpa using h)

theorem dropTrailingWs_eq_self_of_lastOk {l : List Char} (h : LastOk l) :
    dropTrailingWs l = l := by
  induction l with
  | nil => rfl
  | cons c t ih =>
    cases t with
    | nil =>
      have hc : isSpace c = false := h
      simp [dropTrailingWs, hc]
    | cons d t' =>
      have ht : dropTrailingWs (d :: t') = d :: t' := ih h
      rw [dropTrailingWs, ht]

theorem collapseAux_eq_self {l : List Char} (h : OkRun l) :
    collapseAux false l = l ∧ (HeadOk l → collapseAux true l = l) := by
  induction l with
  | nil => exact ⟨rfl, fun _ => rfl⟩
  | cons c t ih =>
    obtain ⟨ihf, iht⟩ := ih (okRun_tail h)
    by_cases hsp : isSpace c = true
    · have hc : c = ' ' := h.1 c (List.mem_cons_self ..) hsp
      have hht : HeadOk t := by
        apply headOk_of_head?
        intro d hd
        have hch := h.2
        cases t with
        | nil => cases hd
        | cons e t' =>
          cases Option.some.inj hd
          rw [List.chain'_cons] at hch
          by_contra hds
          have hds' : isSpace d = true := by simpa using hds
          have hd' : d = ' ' := h.1 d (List.mem_cons_of_mem _ (List.mem_cons_self ..)) hds'
          exact hch.1 ⟨hc, hd'⟩
      constructor
      · have : collapseAux false (c :: t) = ' ' :: collapseAux true t := by
          simp [collapseAux, hsp]
        rw [this, iht hht, hc]
      · intro hh
        exact absurd hsp (by simpa [HeadOk] using hh)
    · have hsp' : isSpace c = false := by simpa using hsp
      refine ⟨?_, fun _ => ?_⟩ <;> simp [collapseAux, hsp', ihf]

theorem stripWs_collapseWs_idem (v : List Char) :
    stripWs (collapseWs (stripWs (collapseWs v))) = stripWs (collapseWs v) := by
  have hu : OkRun (collapseWs v) := (okRun_collapseAux v).1
  have hok : OkRun (stripWs (collapseWs v)) :=
    okRun_dropTrailingWs (okRun_dropWhile hu)
  have hhead : HeadOk (stripWs (collapseWs v)) :=
    headOk_dropTrailingWs (headOk_dropWhile _)
  have hlast : LastOk (stripWs (collapseWs v)) :=
    lastOk_dropTrailingWs _
  have hcol : collapseWs (stripWs (collapseWs v)) = stripWs (collapseWs v) :=
    (collapseAux_eq_self hok).1
  rw [hcol]
  show dropTrailingWs ((stripWs (collapseWs v)).dropWhile isSpace) = _
  rw [dropWhile_eq_self_of_headOk hhead, dropTrailingWs_eq_self_of_lastOk hlast]

/-! ### Claim theorems for text normalization -/

/-- C4 (amended): the normalization is idempotent on every string whose
normalized form is left unchanged by entity decoding; the whitespace
collapse-and-strip stage is idempotent unconditionally, but a second
entity decoding can change an already-normalized string. -/
theorem c4_clean_idempotent_when_decoded (s : List Char)
    (h : htmlUnescape (cleanText s) = cleanText s) :
    cleanText (cleanText s) = cleanText s := by
  show stripWs (collapseWs (htmlUnescape (cleanText s))) = cleanText s
  rw [h]
  exact stripWs_collapseWs_idem (htmlUnescape s)

/-- Witness for C4 on a concrete entity-free string with excess
whitespace. -/
theorem c4_clean_idempotent_when_decoded_witness :
    htmlUnescape (cleanText " a   b ".data) = cleanText " a   b ".data
    ∧ cleanText (cleanText " a   b ".data) = cleanText " a   b ".data :=
  ⟨by decide, c4_clean_idempotent_when_decoded _ (by decide)⟩

/-- Counterexample to C4 as stated: `_clean_text` decodes entities on
every application, so on the string containing a doubly-escaped ampersand
a second normalization decodes once more and the result changes. -/
theorem c4_not_idempotent_counterexample :
    cleanText (cleanText "&amp;amp;".data) ≠ cleanText "&amp;amp;".data := by
  decide

/-! ### Lemmas about the scanning primitives -/

theorem reFindAll_head? {α : Type} (m : List Char → Option (α × List Char))
    (hnil : m [] = none) (s : List Char) :
    (reFindAll m s).head? = (reSearch m s).map Prod.fst := by
  induction s with
  | nil => simp [reFindAll, reFindAllAux, reSearch, hnil]
  | cons c t ih =>
    show (reFindAllAux m (t.length + 1) (c :: t)).head? = _
    cases h : m (c :: t) with
    | some pr => simp [reFindAllAux, reSearch, h]
    | none =>
      simp only [reFindAllAux, reSearch, h]
      simpa [reFindAll] using ih

theorem collectItems_eq_filter (l : List (List Char)) :
    collectItems l = (l.map cleanText).filter (fun t => !t.isEmpty) := by
  induction l with
  | nil => rfl
  | cons capt rest ih =>
    by_cases h : (cleanText capt).isEmpty <;>
      simp [collectItems, h, ih, List.filter_cons]

theorem reSearch_eq_none_of_not_contains {α : Type} (pat : List Char)
    (m : List Char → Option α)
    (hm : ∀ s, (m s).isSome → pat.isPrefixOf s = true) :
    ∀ s : List Char, containsSub pat s = false → reSearch m s = none := by
  intro s
  induction s with
  | nil =>
    intro h
    show m [] = none
    cases hms : m [] with
    | none => rfl
    | some r =>
      have hp := hm [] (by simp [hms])
      rw [containsSub, hp] at h
      cases h
  | cons c t ih =>
    intro h
    rw [containsSub, Bool.or_eq_false_iff] at h
    show (match m (c :: t) with | some r => some r | none => reSearch m t) = none
    cases hms : m (c :: t) with
    | some r =>
      have hp := hm (c :: t) (by simp [hms])
      rw [hp] at h
      cases h.1
    | none => exact ih h.2

theorem sectionMatchAt_isSome_anchored (sid : List Char) :
    ∀ s, (sectionMatchAt sid s).isSome → (anchorLit sid).isPrefixOf s = true := by
  intro s hs
  by_cases hp : (anchorLit sid).isPrefixOf s = true
  · exact hp
  · rw [sectionMatchAt, if_neg (by simpa using hp)] at hs
    cases hs

theorem findSectionContent_of_no_anchor (doc sid : List Char)
    (h : containsSub (anchorLit sid) doc = false) :
    findSectionContent doc sid = [] := by
  have hnone := reSearch_eq_none_of_not_contains (anchorLit sid)
    (sectionMatchAt sid) (sectionMatchAt_isSome_anchored sid) doc h
  simp [findSectionContent, hnone]

theorem extractCategory_of_no_anchor (doc sid : List Char)
    (h : containsSub (anchorLit sid) doc = false) :
    extractCategory doc sid = ⟨[], []⟩ := by
  have hsec := findSectionContent_of_no_anchor doc sid h
  simp [extractCategory, extractCategorySeverity, extractCategoryItems, hsec]

theorem categoryOf_extractGuide (id doc sid : List Char)
    (hmem : sid ∈ categoryIds) :
    categoryOf (extractGuide id doc) sid = extractCategory doc sid := by
  rcases (by simpa [categoryIds] using hmem :
      sid = "nudity".data ∨ sid = "violence".data ∨ sid = "profanity".data
        ∨ sid = "alcohol".data ∨ sid = "frightening".data) with
    rfl | rfl | rfl | rfl | rfl
  · rw [categoryOf, if_pos rfl]; rfl
  · rw [categoryOf, if_neg (by decide), if_pos rfl]; rfl
  · rw [categoryOf, if_neg (by decide), if_neg (by decide), if_pos rfl]; rfl
  · rw [categoryOf, if_neg (by decide), if_neg (by decide), if_neg (by decide),
      if_pos rfl]
    rfl
  · rw [categoryOf, if_neg (by decide), if_neg (by decide), if_neg (by decide),
      if_neg (by decide)]
    rfl

theorem processBlocks_eq_filter (blocks : List (List Char)) :
    processBlocks blocks =
      (blocks.filter (fun b => containsSub litCertItemSub b
          && !(blockCountry b).isEmpty && !(blockRatings b).isEmpty)).map
        (fun b => ⟨blockCountry b, blockRatings b⟩) := by
  induction blocks with
  | nil => rfl
  | cons b rest ih =>
    by_cases h1 : containsSub litCertItemSub b = true
    · by_cases h2 : (blockCountry b).isEmpty = true
      · simp [processBlocks, h1, h2, ih, List.filter_cons]
      · by_cases h3 : (blockRatings b).isEmpty = true
        · simp [processBlocks, h1, h2, h3, ih, List.filter_cons]
        · simp [processBlocks, h1, h2, h3, ih, List.filter_cons]
    · simp [processBlocks, h1, ih, List.filter_cons]

/-! ### Lemmas about the request retry loop -/

theorem makeRequestAux_congr (o o' : Nat → AttemptOutcome) :
    ∀ (r a : Nat), (∀ i, a ≤ i → i < a + r → o i = o' i) →
      makeRequestAux o a r = makeRequestAux o' a r := by
  intro r
  induction r with
  | zero => intro a _; rfl
  | succ r ih =>
    intro a h
    have h0 : o a = o' a := h a le_rfl (by omega)
    simp only [makeRequestAux]
    rw [h0]
    cases o' a with
    | response st b =>
      by_cases hst : st = 200
      · simp [hst]
      · simp only [if_neg hst]
        exact ih (a + 1) (fun i h1 h2 => h i (by omega) (by omega))
    | exn m => exact ih (a + 1) (fun i h1 h2 => h i (by omega) (by omega))

theorem makeRequestAux_success (o : Nat → AttemptOutcome) :
    ∀ (r a i : Nat) (b : String), i < r →
      (∀ j, j < i → is200 (o (a + j)) = false) →
      o (a + i) = .response 200 b → makeRequestAux o a r = some b := by
  intro r
  induction r with
  | zero => intro a i b hi _ _; omega
  | succ r ih =>
    intro a i b hi hprev hcur
    cases i with
    | zero =>
      simp only [Nat.add_zero] at hcur
      simp [makeRequestAux, hcur]
    | succ i =>
      have h0 : is200 (o a) = false := by
        simpa using hprev 0 (by omega)
      simp only [makeRequestAux]
      cases ho : o a with
      | response st b' =>
        have hst : st ≠ 200 := by
          intro hh
          rw [ho, hh] at h0
          simp [is200] at h0
        show (if st = 200 then some b' else makeRequestAux o (a + 1) r) = some b
        rw [if_neg hst]
        refine ih (a + 1) i b (by omega) ?_ ?_
        · intro j hj
          have := hprev (j + 1) (by omega)
          have e : a + (j + 1) = a + 1 + j := by omega
          rwa [e] at this
        · have e : a + (i + 1) = a + 1 + i := by omega
          rwa [e] at hcur
      | exn m =>
        refine ih (a + 1) i b (by omega) ?_ ?_
        · intro j hj
          have := hprev (j + 1) (by omega)
          have e : a + (j + 1) = a + 1 + j := by omega
          rwa [e] at this
        · have e : a + (i + 1) = a + 1 + i := by omega
          rwa [e] at hcur

theorem makeRequestAux_none (o : Nat → AttemptOutcome) :
    ∀ (r a : Nat), (∀ j, j < r → is200 (o (a + j)) = false) →
      makeRequestAux o a r = none := by
  intro r
  induction r with
  | zero => intro a _; rfl
  | succ r ih =>
    intro a h
    have h0 : is200 (o a) = false := by simpa using h 0 (by omega)
    simp only [makeRequestAux]
    cases ho : o a with
    | response st b =>
      have hst : st ≠ 200 := by
        intro hh
        rw [ho, hh] at h0
        simp [is200] at h0
      show (if st = 200 then some b else makeRequestAux o (a + 1) r) = none
      rw [if_neg hst]
      refine ih (a + 1) ?_
      intro j hj
      have := h (j + 1) (by omega)
      have e : a + (j + 1) = a + 1 + j := by omega
      rwa [e] at this
    | exn m =>
      refine ih (a + 1) ?_
      intro j hj
      have := h (j + 1) (by omega)
      have e : a + (j + 1) = a + 1 + j := by omega
      rwa [e] at this

/-! ### Lemmas about the translator wrapper -/

theorem fixLength_length (items ti : List String) :
    (fixLength items ti).length = items.length := by
  unfold fixLength
  by_cases h : ti.length = items.length
  · simp [h]
  · rw [if_pos h]
    by_cases h2 : ti.length < items.length
    · rw [if_pos h2]
      simp only [List.length_append, List.length_drop]
      omega
    · rw [if_neg h2]
      simp only [List.length_take]
      omega

theorem translateItemsAux_some_length (service : Nat → SvcResult)
    (items : List String) :
    ∀ (r a : Nat) (res : List String) (calls : Nat),
      translateItemsAux service items a r = (some res, calls) →
      res.length = items.length := by
  intro r
  induction r with
  | zero =>
    intro a res calls h
    simp [translateItemsAux] at h
  | succ r ih =>
    intro a res calls h
    simp only [translateItemsAux] at h
    cases hs : service a with
    | ok content =>
      rw [hs] at h
      have h1 := (Prod.mk.injEq ..).mp h |>.1
      have h2 := Option.some.inj h1
      rw [← h2]
      exact fixLength_length ..
    | err m =>
      rw [hs] at h
      have h1 : (translateItemsAux service items (a + 1) r).1 = some res :=
        (Prod.mk.injEq ..).mp h |>.1
      exact ih (a + 1) res (translateItemsAux service items (a + 1) r).2
        (by rw [← h1])

/-! ### Claim theorems for the extraction engine -/

/-- C2: for every document in which the anchor of a given category does
not occur, the extracted record has that category empty (severity the
empty string, items the empty list) and never errors, while the title,
content rating, certifications, and every other category are still the
values of their own standalone extractors on the same document. -/
theorem c2_missing_anchor_defaults (id doc sid : List Char)
    (hmem : sid ∈ categoryIds)
    (h : containsSub (anchorLit sid) doc = false) :
    categoryOf (extractGuide id doc) sid = ⟨[], []⟩
    ∧ (extractGuide id doc).title = extractTitle doc
    ∧ (extractGuide id doc).contentRating = extractContentRating doc
    ∧ (extractGuide id doc).certifications = extractCertifications doc
    ∧ (∀ sid', sid' ∈ categoryIds → sid' ≠ sid →
        categoryOf (extractGuide id doc) sid' = extractCategory doc sid') := by
  refine ⟨?_, rfl, rfl, rfl, ?_⟩
  · rw [categoryOf_extractGuide id doc sid hmem]
    exact extractCategory_of_no_anchor doc sid h
  · intro sid' hmem' _
    exact categoryOf_extractGuide id doc sid' hmem'

/-- Witness for C2 on a concrete document without the nudity anchor. -/
theorem c2_missing_anchor_defaults_witness :
    categoryOf (extractGuide "tt1".data "<html>no anchors here</html>".data)
        "nudity".data = ⟨[], []⟩
    ∧ (extractGuide "tt1".data "<html>no anchors here</html>".data).title
        = extractTitle "<html>no anchors here</html>".data :=
  ⟨(c2_missing_anchor_defaults "tt1".data "<html>no anchors here</html>".data
      "nudity".data (by decide) (by decide)).1,
    (c2_missing_anchor_defaults "tt1".data "<html>no anchors here</html>".data
      "nudity".data (by decide) (by decide)).2.1⟩

/-- C6: within the bounded span of a category, the extracted severity is
the cleaned capture of the first severity-label match (later matches are
ignored: it is the head of the full match list), and the extracted items
are the cleaned captures of all item matches in order of appearance, with
those that normalize to the empty string dropped. -/
theorem c6_first_severity_all_items (doc sid : List Char) :
    extractCategorySeverity doc sid =
      (((reFindAll (matchLabelCapture litSignpost)
          (findSectionContent doc sid)).map cleanText).headD [])
    ∧ extractCategoryItems doc sid =
      ((reFindAll itemMatchAt (findSectionContent doc sid)).map cleanText).filter
        (fun t => !t.isEmpty) := by
  constructor
  · by_cases hsec : (findSectionContent doc sid).isEmpty = true
    · have he : findSectionContent doc sid = [] := by
        rwa [List.isEmpty_iff] at hsec
      simp [extractCategorySeverity, he, reFindAll, reFindAllAux]
    · have hnil : matchLabelCapture litSignpost [] = none := by decide
      have hh := reFindAll_head? (matchLabelCapture litSignpost) hnil
        (findSectionContent doc sid)
      cases hsr : reSearch (matchLabelCapture litSignpost)
          (findSectionContent doc sid) with
      | none =>
        rw [hsr] at hh
        have hempty : reFindAll (matchLabelCapture litSignpost)
            (findSectionContent doc sid) = [] := by
          rwa [← List.head?_eq_none_iff]
        simp [extractCategorySeverity, hsec, hsr, hempty]
      | some pr =>
        rw [hsr] at hh
        have hmap : ((reFindAll (matchLabelCapture litSignpost)
            (findSectionContent doc sid)).map cleanText).head?
              = some (cleanText pr.1) := by
          rw [List.head?_map, hh]
          rfl
        rw [List.headD_eq_head?_getD, hmap]
        simp [extractCategorySeverity, hsec, hsr]
  · by_cases hsec : (findSectionContent doc sid).isEmpty = true
    · have he : findSectionContent doc sid = [] := by
        rwa [List.isEmpty_iff] at hsec
      simp [extractCategoryItems, he, reFindAll, reFindAllAux]
    · have he : extractCategoryItems doc sid
          = collectItems (reFindAll itemMatchAt (findSectionContent doc sid)) := by
        simp [extractCategoryItems, hsec]
      rw [he, collectItems_eq_filter]

/-- C7: for a document with a certifications container, the extracted
list has exactly one item per sub-block with the item marker text, a
nonempty country label, and at least one kept rating, in order of
appearance, and its length is the number of such sub-blocks. -/
theorem c7_certifications_per_block (doc sec : List Char)
    (h : findCertSection doc = some sec) :
    extractCertifications doc =
      ((splitKeepMarker litCertItemMarker [] sec).filter
          (fun b => containsSub litCertItemSub b && !(blockCountry b).isEmpty
            && !(blockRatings b).isEmpty)).map
        (fun b => ⟨blockCountry b, blockRatings b⟩)
    ∧ (extractCertifications doc).length =
      ((splitKeepMarker litCertItemMarker [] sec).filter
          (fun b => containsSub litCertItemSub b && !(blockCountry b).isEmpty
            && !(blockRatings b).isEmpty)).length := by
  have e : extractCertifications doc
      = processBlocks (splitKeepMarker litCertItemMarker [] sec) := by
    simp [extractCertifications, h]
  rw [e, processBlocks_eq_filter]
  exact ⟨rfl, by rw [List.length_map]⟩

set_option maxRecDepth 16384 in
/-- Witness for C7: a three-country certification block whose middle
country has zero ratings yields exactly two entries. -/
theorem c7_certifications_per_block_witness :
    (extractCertifications certDocEx).length =
      ((splitKeepMarker litCertItemMarker [] certSecEx).filter
          (fun b => containsSub litCertItemSub b && !(blockCountry b).isEmpty
            && !(blockRatings b).isEmpty)).length
    ∧ (extractCertifications certDocEx).length = 2 :=
  ⟨(c7_certifications_per_block certDocEx certSecEx (by decide)).2, by decide⟩

/-! ### Claim theorems for the request retry loop -/

/-- C5 (amended): the fetch loop makes at most `max_retries` attempts
(the result depends only on the first `max_retries` outcomes); an attempt
whose response has status code exactly 200 ends the loop successfully
with the document, earlier non-200 attempts notwithstanding; and when
every attempt within the budget is a non-200 response or a request
exception, the loop returns the failure value instead of raising. -/
theorem c5_request_retry_policy (o o' : Nat → AttemptOutcome) (maxRetries : Nat) :
    ((∀ i, i < maxRetries → o i = o' i) →
        makeRequest o maxRetries = makeRequest o' maxRetries)
    ∧ (∀ i b, i < maxRetries → (∀ j, j < i → is200 (o j) = false) →
        o i = .response 200 b → makeRequest o maxRetries = some b)
    ∧ ((∀ j, j < maxRetries → is200 (o j) = false) →
        makeRequest o maxRetries = none) := by
  refine ⟨?_, ?_, ?_⟩
  · intro h
    exact makeRequestAux_congr o o' maxRetries 0 (fun i _ h2 => h i (by omega))
  · intro i b hi hprev hcur
    exact makeRequestAux_success o maxRetries 0 i b hi (by simpa) (by simpa)
  · intro h
    exact makeRequestAux_none o maxRetries 0 (by simpa)

/-- Witness for C5: a raised first attempt followed by a 200 response
succeeds with the document; an all-404 run returns the failure value. -/
theorem c5_request_retry_policy_witness :
    makeRequest attemptsEx 3 = makeRequest attemptsEx 3
    ∧ makeRequest attemptsEx 3 = some "doc"
    ∧ makeRequest attemptsBad 3 = none :=
  ⟨(c5_request_retry_policy attemptsEx attemptsEx 3).1 (fun _ _ => rfl),
    (c5_request_retry_policy attemptsEx attemptsEx 3).2.1 1 "doc" (by omega)
      (fun j hj => by
        have hj0 : j = 0 := by omega
        subst hj0
        rfl)
      rfl,
    (c5_request_retry_policy attemptsBad attemptsBad 3).2.2 (fun _ _ => rfl)⟩

/-- Counterexample to C5 as stated: a 201 response lies in the 2xx range
but does not end the loop; when every attempt returns 201 the loop
exhausts its budget and yields the failure value, not the document. -/
theorem c5_2xx_not_accepted_counterexample :
    (200 ≤ 201 ∧ 201 < 300)
    ∧ makeRequest (fun _ => AttemptOutcome.response 201 "doc") 3 = none
    ∧ makeRequest (fun _ => AttemptOutcome.response 201 "doc") 3 ≠ some "doc" := by
  refine ⟨⟨by omega, by omega⟩, rfl, by decide⟩

/-! ### Claim theorems for the translator wrapper -/

/-- C8: the translator wrapper returns the empty list on empty input
without invoking the service (zero calls), and whenever it returns a list
at all, that list has exactly the input length, the service result having
been padded with the remaining original items or truncated as needed. -/
theorem c8_translate_length (service : Nat → SvcResult) (maxRetries : Nat) :
    translateItems service [] maxRetries = (some [], 0)
    ∧ (∀ items res calls,
        translateItems service items maxRetries = (some res, calls) →
        res.length = items.length) := by
  constructor
  · rfl
  · intro items res calls h
    by_cases hi : items.isEmpty = true
    · rw [List.isEmpty_iff] at hi
      subst hi
      have h' : ((some [], 0) : Option (List String) × Nat) = (some res, calls) := h
      have hres := Option.some.inj ((Prod.mk.injEq ..).mp h' |>.1)
      rw [← hres]
    · rw [translateItems, if_neg (by simpa using hi)] at h
      exact translateItemsAux_some_length service items maxRetries 0 res calls h

/-- Witness for C8: empty input makes no call; a backend answering three
pieces for a two-item input is truncated to length two. -/
theorem c8_translate_length_witness :
    translateItems (fun _ => SvcResult.ok "a---b---c") [] 3 = (some [], 0)
    ∧ (["a", "b"] : List String).length = (["x", "y"] : List String).length :=
  ⟨(c8_translate_length (fun _ => SvcResult.ok "a---b---c") 3).1,
    (c8_translate_length (fun _ => SvcResult.ok "a---b---c") 3).2
      ["x", "y"] ["a", "b"] 1 (by decide)⟩

end MovieIsFine
